import Mathlib

/-!
Verification of the ETSimulations command-broker subsystem.

This file gives a shallow embedding of the broker subsystem of ETSimulations:
the Chimera REST-server lifecycle (`src/simulation/chimera_server.py`, class
`ChimeraServer`), the command broker loop (`run_chimera_server` in
`src/ets_generate_data.py`), and the worker-side submission path
(`ChimeraCommandSet.send_and_wait` and `T4SSAssembler`), together with proofs
of behavioural properties of those definitions.

Conventions of the embedding:
* HTTP requests are not performed; each `requests.get` call is recorded as a
  trace event carrying the command string, the `timeout` keyword argument that
  the source passes (or `none` when it passes none), and the target port.
  The outcome of each timed request is supplied by an oracle function.
* Unbounded `while` loops are given an explicit fuel argument; running out of
  fuel models the loop still running (non-termination up to that bound).
* Python exceptions are modelled as explicit error results.
-/

/-! ## Python string helpers

`run_chimera_server` discovers the REST port with
`int(line.split("REST server on host 127.0.0.1 port ")[1])`.  We model
`str.split` with a separator (left-to-right scan over the characters,
cutting at each non-overlapping occurrence of the separator) and `int`
(strip surrounding whitespace, then parse a decimal numeral). -/

/-- If `pat` is a leading segment of `l`, return the remainder of `l`
after it; otherwise `none`. -/
def dropPat : List Char → List Char → Option (List Char)
  | [], l => some l
  | _ :: _, [] => none
  | p :: ps, c :: cs => if p = c then dropPat ps cs else none

/-- Worker for `pySplit`: scan the remaining characters, cutting at each
occurrence of `pat`.  `fuel` bounds the scan; the wrapper passes enough
fuel to consume the whole string. -/
def splitGo (pat : List Char) : Nat → List Char → List Char → List (List Char)
  | 0, acc, rest => [acc.reverse ++ rest]
  | _ + 1, acc, [] => [acc.reverse]
  | fuel + 1, acc, c :: cs =>
    match dropPat pat (c :: cs) with
    | some rest => acc.reverse :: splitGo pat fuel [] rest
    | none => splitGo pat fuel (c :: acc) cs

/-- Model of Python `s.split(sep)` for a non-empty separator. -/
def pySplit (sep s : String) : List String :=
  (splitGo sep.data (s.data.length + 1) [] s.data).map String.mk

/-- Strip leading and trailing whitespace characters. -/
def trimChars (l : List Char) : List Char :=
  ((l.dropWhile Char.isWhitespace).reverse.dropWhile Char.isWhitespace).reverse

/-- Parse a non-empty all-digit character list as a decimal numeral. -/
def natOfChars (l : List Char) : Option Nat :=
  if l = [] then none
  else
    l.foldl
      (fun acc c =>
        match acc with
        | none => none
        | some n => if c.isDigit then some (n * 10 + (c.toNat - 48)) else none)
      (some 0)

/-- Model of Python `int(s)` on the (non-negative) strings relevant here:
surrounding whitespace is ignored, and the result is `none` (a raised
`ValueError`) when the remainder is not a decimal numeral. -/
def pyInt (s : String) : Option Nat :=
  natOfChars (trimChars s.data)

/-- The textual pattern announcing the REST port in Chimera's startup
output (`chimera_server.py`, `start_chimera_server`). -/
def portPattern : String := "REST server on host 127.0.0.1 port "

/-- `int(line.split(portPattern)[1])`: `none` models the propagated
`IndexError`/`ValueError` when the line does not yield a port. -/
def parsePort (line : String) : Option Nat :=
  match (pySplit portPattern line).get? 1 with
  | none => none
  | some t => pyInt t

/-! ## Port-discovery polling loop (`ChimeraServer.start_chimera_server`)

The reader thread enqueues the first stdout line of the spawned process
(if the process ever produces one).  The main thread polls the queue with
`outq.get(block=False)`, sleeping 0.5 s on `queue.Empty`, with no bound on
the number of attempts. -/

/-- Result of running the polling loop for a given number of attempts. -/
inductive PollResult where
  | found (port : Nat)
  | parseError
  | stillPolling
  deriving DecidableEq

/-- The polling loop of `start_chimera_server`.  `firstLine` is the first
stdout line of the process (`none` when the process never writes one);
`readyAt` is the polling attempt from which the reader thread has made the
line available; `attempts` bounds how many iterations we observe; `k` is
the current attempt index.  `.stillPolling` means the loop has neither
returned nor raised within the observed attempts. -/
def pollLoop (firstLine : Option String) (readyAt : Nat) : Nat → Nat → PollResult
  | 0, _ => .stillPolling
  | fuel + 1, k =>
    match firstLine with
    | some l =>
      if readyAt ≤ k then
        match parsePort l with
        | some p => .found p
        | none => .parseError
      else pollLoop firstLine readyAt fuel (k + 1)
    | none => pollLoop firstLine readyAt fuel (k + 1)

/-! ## `ChimeraServer` lifecycle -/

/-- An OS process handle: its id and whether it is still running. -/
structure ProcHandle where
  pid : Nat
  alive : Bool
  deriving DecidableEq

/-- The `ChimeraServer` object: `port`, `process`, and
`chimera_exec_path`, all as in the source. -/
structure ChimeraServer where
  port : Option Nat
  process : Option ProcHandle
  chimera_exec_path : String
  deriving DecidableEq

/-- `ChimeraServer.quit`: terminate the process if one was started.
(The source neither clears `self.process` nor `self.port`.) -/
def ChimeraServer.quit (s : ChimeraServer) : ChimeraServer :=
  match s.process with
  | some p => { s with process := some { p with alive := false } }
  | none => s

/-- The environment supplying each spawn of the Chimera subprocess: the
process handle id of the `g`-th spawn, the first line it writes to stdout
(if any), and the polling attempt at which that line becomes available. -/
structure SpawnEnv where
  nextPid : Nat → Nat
  firstLine : Nat → Option String
  readyAt : Nat → Nat

/-- Result of `start_chimera_server`: the updated object, a propagated
parse error (aborting the run), or the discovery loop still polling. -/
inductive StartResult where
  | started (s : ChimeraServer)
  | fatal
  | polling
  deriving DecidableEq

/-- `ChimeraServer.start_chimera_server`: spawn the `g`-th Chimera process
and poll its stdout for the port announcement, then record the process
handle and the port. -/
def start_chimera_server (env : SpawnEnv) (g pollFuel : Nat) (s : ChimeraServer) :
    StartResult :=
  match pollLoop (env.firstLine g) (env.readyAt g) pollFuel 0 with
  | .found p =>
    .started { s with process := some { pid := env.nextPid g, alive := true }, port := some p }
  | .parseError => .fatal
  | .stillPolling => .polling

/-- Modelled from the spec: `restart_chimera_server` is invoked by the
broker's recovery branch (`ets_generate_data.py:327`) but its definition is
absent from the provided sources; per the spec, `Restart()` is
`Terminate()` followed by `Start()`. -/
def restart_chimera_server (env : SpawnEnv) (g pollFuel : Nat) (s : ChimeraServer) :
    StartResult :=
  start_chimera_server env g pollFuel s.quit

/-! ## The broker loop (`run_chimera_server` in `ets_generate_data.py`)

One message from the shared queue is a pair `(requester_pid, new_commands)`.
The broker holds the `ChimeraServer`, the `finished_processes` list and the
`process_events` dictionary (here an association list `pid ↦ event flag`).
Each `requests.get` carries `timeout=600` inside the dispatch loop and no
timeout for the post-batch cleanup request. -/

/-- The reserved sentinel batch head (`new_commands[0] == "END"`). -/
def endSentinel : String := "END"

/-- The unconditional post-batch cleanup command. -/
def closeSessionCmd : String := "close session"

/-- Outcome of a `requests.get(..., timeout=600)` call: success, a raised
`requests.exceptions.Timeout`, or a raised
`requests.exceptions.ConnectionError`.  (With a timeout set, a hung server
manifests as `Timeout`.) -/
inductive ReqOutcome where
  | ok
  | timeout
  | connError
  deriving DecidableEq

/-- Outcome of the cleanup `requests.get` call, which passes no timeout:
success, a raised `ConnectionError`, or a request that never returns
(possible precisely because no timeout is set). -/
inductive CleanupOutcome where
  | ok
  | connError
  | hang
  deriving DecidableEq

/-- Python exceptions that can propagate out of the broker loop. -/
inductive PyErr where
  | indexError
  | keyError
  | connectionError
  | portError
  deriving DecidableEq

/-- Observable events of the broker: an HTTP request issued against the
REST endpoint (command, `timeout` keyword argument, port), or a restart of
the Chimera server (old and new port). -/
inductive BrokerEv where
  | request (cmd : String) (timeoutParam : Option Nat) (port : Option Nat)
  | restartEv (oldPort newPort : Option Nat)
  deriving DecidableEq

/-- Whether an event is a server restart. -/
def isRestart : BrokerEv → Bool
  | .restartEv _ _ => true
  | _ => false

/-- Whether an event is a request issuing the cleanup command. -/
def isCleanup : BrokerEv → Bool
  | .request c _ _ => c = closeSessionCmd
  | _ => false

/-- Number of cleanup-command requests in a trace. -/
def cleanupCount (tr : List BrokerEv) : Nat := tr.countP isCleanup

/-- Number of server restarts in a trace. -/
def countRestarts (tr : List BrokerEv) : Nat := tr.countP isRestart

/-- The events after the last restart in a trace (the whole trace when it
contains no restart): the batch execution's final pass. -/
def finalPass : List BrokerEv → List BrokerEv
  | [] => []
  | e :: rest =>
    if rest.any isRestart then finalPass rest
    else if isRestart e then rest
    else e :: rest

/-- Result of the batch dispatch loop (`while i < len(new_commands)`):
completion with the current server and generation plus the emitted trace,
a propagated error from a restart, or a loop still running (out of fuel,
or a restart stuck in port discovery). -/
inductive ExecResult where
  | done (s : ChimeraServer) (g : Nat) (tr : List BrokerEv)
  | fatal (tr : List BrokerEv)
  | hung (tr : List BrokerEv)
  deriving DecidableEq

/-- Prepend an event to the trace of an `ExecResult`. -/
def consEv (e : BrokerEv) : ExecResult → ExecResult
  | .done s g tr => .done s g (e :: tr)
  | .fatal tr => .fatal (e :: tr)
  | .hung tr => .hung (e :: tr)

/-- The batch dispatch loop of `run_chimera_server`
(`ets_generate_data.py:305-333`): issue `new_commands[i]` with
`timeout=600`; on success `i += 1`; on `Timeout`/`ConnectionError`,
restart the Chimera server, recompute `base_request`, and reset `i = 0`.
`o` gives the outcome of the `k`-th timed request; `fuel` bounds the
number of loop iterations observed. -/
def batchLoop (env : SpawnEnv) (o : Nat → ReqOutcome) (pollFuel : Nat)
    (cmds : List String) (fuel : Nat) (s : ChimeraServer) (g k i : Nat) : ExecResult :=
  match fuel with
  | 0 => .hung []
  | fuel' + 1 =>
    if h : i < cmds.length then
      let ev : BrokerEv := .request (cmds.get ⟨i, h⟩) (some 600) s.port
      match o k with
      | .ok => consEv ev (batchLoop env o pollFuel cmds fuel' s g (k + 1) (i + 1))
      | _ =>
        match restart_chimera_server env (g + 1) pollFuel s with
        | .started s' =>
          consEv ev (consEv (.restartEv s.port s'.port)
            (batchLoop env o pollFuel cmds fuel' s' (g + 1) (k + 1) 0))
        | .fatal => .fatal [ev]
        | .polling => .hung [ev]
    else .done s g []

/-- A message pulled from the shared commands queue:
`(requester_pid, new_commands)`. -/
structure Msg where
  pid : Nat
  commands : List String
  deriving DecidableEq

/-- `process_events[pid].set()`: set the flag of `pid`'s entry, or `none`
(a raised `KeyError`) when `pid` is not a key of the dictionary. -/
def setEvent (events : List (Nat × Bool)) (pid : Nat) : Option (List (Nat × Bool)) :=
  if events.any (fun e => e.1 == pid) then
    some (events.map fun e => if e.1 == pid then (e.1, true) else e)
  else none

/-- The flag currently recorded for `pid`. -/
def lookupFlag (events : List (Nat × Bool)) (pid : Nat) : Option Bool :=
  (events.find? fun e => e.1 == pid).map Prod.snd

/-- The broker's state across messages: the `ChimeraServer`, the spawn
generation, `finished_processes` and `process_events`. -/
structure BrokerState where
  server : ChimeraServer
  gen : Nat
  finished : List Nat
  events : List (Nat × Bool)
  deriving DecidableEq

/-- Result of handling one message: return to the top of the loop, break
out of it (all owners finished), propagate an exception, or never return. -/
inductive HandleOutcome where
  | idle (st : BrokerState) (tr : List BrokerEv)
  | terminated (st : BrokerState) (tr : List BrokerEv)
  | crash (e : PyErr) (st : BrokerState) (tr : List BrokerEv)
  | stuck (tr : List BrokerEv)
  deriving DecidableEq

/-- The body of the broker's `while True` loop
(`ets_generate_data.py:288-339`): read `new_commands[0]` (raising
`IndexError` on an empty batch); on `"END"`, append the pid to
`finished_processes`, set its event, and break when every registered pid
has finished; otherwise run the dispatch loop, issue the unconditional
cleanup request (no timeout, outside the `try`), and set the event. -/
def serverStep (env : SpawnEnv) (o : Nat → ReqOutcome) (cu : CleanupOutcome)
    (pollFuel loopFuel : Nat) (st : BrokerState) (m : Msg) : HandleOutcome :=
  match m.commands.head? with
  | none => .crash .indexError st []
  | some c0 =>
    if c0 = endSentinel then
      let finished' := st.finished ++ [m.pid]
      match setEvent st.events m.pid with
      | none => .crash .keyError { st with finished := finished' } []
      | some ev' =>
        if finished'.length = st.events.length then
          .terminated { st with finished := finished', events := ev' } []
        else
          .idle { st with finished := finished', events := ev' } []
    else
      match batchLoop env o pollFuel m.commands loopFuel st.server st.gen 0 0 with
      | .hung tr => .stuck tr
      | .fatal tr => .crash .portError st tr
      | .done s' g' tr =>
        let cleanup : BrokerEv := .request closeSessionCmd none s'.port
        match cu with
        | .ok =>
          match setEvent st.events m.pid with
          | none => .crash .keyError { st with server := s', gen := g' } (tr ++ [cleanup])
          | some ev' =>
            .idle { st with server := s', gen := g', events := ev' } (tr ++ [cleanup])
        | .connError =>
          .crash .connectionError { st with server := s', gen := g' } (tr ++ [cleanup])
        | .hang => .stuck (tr ++ [cleanup])

/-- Result of running the broker over a finite list of submitted messages. -/
inductive RunResult where
  | stillServing (st : BrokerState)
  | terminatedR (st : BrokerState)
  | crashed (e : PyErr)
  | stuckR
  deriving DecidableEq

/-- `run_chimera_server`'s message loop over a finite submission sequence:
process messages in order until the loop breaks (then `chimera.quit()`),
an exception propagates, or a request never returns; with messages left
unconsumed the broker is still serving (blocked on `commands_queue.get`). -/
def run_chimera_server (env : SpawnEnv) (o : Nat → ReqOutcome) (cu : CleanupOutcome)
    (pollFuel loopFuel : Nat) (st : BrokerState) : List Msg → RunResult
  | [] => .stillServing st
  | m :: rest =>
    match serverStep env o cu pollFuel loopFuel st m with
    | .idle st' _ => run_chimera_server env o cu pollFuel loopFuel st' rest
    | .terminated st' _ => .terminatedR { st' with server := st'.server.quit }
    | .crash e _ _ => .crashed e
    | .stuck _ => .stuckR

/-- Whether a run ended with the broker terminated. -/
def isTerminated : RunResult → Bool
  | .terminatedR _ => true
  | _ => false

/-- The `finished_processes` list at the end of a run. -/
def finishedOf : RunResult → List Nat
  | .stillServing st => st.finished
  | .terminatedR st => st.finished
  | _ => []

/-- An END-sentinel message from owner `p`. -/
def endMsg (p : Nat) : Msg := ⟨p, [endSentinel]⟩

/-! ## Worker-side submission path

`ChimeraCommandSet.send_and_wait` (`chimera_server.py:54-71`) puts
`(pid, commands)` on the shared queue and waits on the acknowledgement
event; `T4SSAssembler.__send_commands_to_chimera` then clears the event;
`T4SSAssembler.close` submits `["END"]` through the same path. -/

/-- Primitive operations the worker performs against the shared queue and
its acknowledgement event. -/
inductive WorkerOp where
  | put (cmds : List String)
  | waitAck
  | clearAck
  deriving DecidableEq

/-- `ChimeraCommandSet.send_and_wait`: enqueue, then wait on the event. -/
def send_and_wait (cmds : List String) : List WorkerOp :=
  [.put cmds, .waitAck]

/-- `T4SSAssembler.__send_commands_to_chimera`: `send_and_wait`, then
clear the acknowledgement event for future commands. -/
def send_commands_to_chimera (cmds : List String) : List WorkerOp :=
  send_and_wait cmds ++ [.clearAck]

/-- `T4SSAssembler.close`: `self.commands = ["END"]` then
`self.__send_commands_to_chimera()`. -/
def t4ss_close : List WorkerOp :=
  send_commands_to_chimera [endSentinel]

/-! ## Owner/broker synchronisation (one owner and its broker)

The small-step system below interleaves one worker's submission loop
(`put`; `wait`; `clear`; repeat) with its broker (`get` a batch; execute;
`set` the owner's event).  `q` is the number of this owner's batches in
the queue and `flag` the owner's event. -/

/-- Worker program counter inside the submission loop. -/
inductive WPhase where
  | beforePut
  | waitingAck
  | clearing
  deriving DecidableEq

/-- Broker program counter. -/
inductive BPhase where
  | idle
  | busy
  deriving DecidableEq

/-- Joint state of one owner and its broker. -/
structure SyncState where
  w : WPhase
  b : BPhase
  q : Nat
  flag : Bool
  deriving DecidableEq

/-- Initial state: worker about to submit, broker idle, queue empty,
event clear. -/
def syncInit : SyncState := ⟨.beforePut, .idle, 0, false⟩

/-- Interleaved small steps of the worker and the broker. -/
inductive SyncStep : SyncState → SyncState → Prop where
  | putBatch (s : SyncState) (hw : s.w = .beforePut) :
      SyncStep s { s with w := .waitingAck, q := s.q + 1 }
  | ackWait (s : SyncState) (hw : s.w = .waitingAck) (hf : s.flag = true) :
      SyncStep s { s with w := .clearing }
  | ackClear (s : SyncState) (hw : s.w = .clearing) :
      SyncStep s { s with w := .beforePut, flag := false }
  | brokerGet (s : SyncState) (hb : s.b = .idle) (hq : 0 < s.q) :
      SyncStep s { s with b := .busy, q := s.q - 1 }
  | brokerSet (s : SyncState) (hb : s.b = .busy) :
      SyncStep s { s with b := .idle, flag := true }

/-- States reachable from the initial state. -/
def SyncReachable (s : SyncState) : Prop :=
  Relation.ReflTransGen SyncStep syncInit s

/-- Number of this owner's batches currently in flight: enqueued, being
executed, or completed with the acknowledgement not yet consumed. -/
def inFlight (s : SyncState) : Nat :=
  s.q + (if s.b = .busy then 1 else 0) + (if s.flag then 1 else 0)

/-! ## Concrete instances used to evaluate the definitions -/

/-- A startup line as Chimera prints it, announcing port 7000. -/
def portLine7000 : String := "REST server on host 127.0.0.1 port 7000"

/-- A spawn environment in which every spawned process immediately
announces port 7000. -/
def envGood : SpawnEnv := ⟨fun g => g, fun _ => some portLine7000, fun _ => 0⟩

/-- A spawn environment whose processes never write a line to stdout. -/
def envNone : SpawnEnv := ⟨fun g => g, fun _ => none, fun _ => 0⟩

/-- A started server at port 7000. -/
def serverW : ChimeraServer := ⟨some 7000, some ⟨0, true⟩, "chimera"⟩

/-- A never-started server object, as built by `ChimeraServer.__init__`. -/
def serverInit : ChimeraServer := ⟨none, none, "chimera"⟩

/-- An oracle under which every timed request succeeds. -/
def oAllOk : Nat → ReqOutcome := fun _ => .ok

/-- An oracle under which exactly the second timed request times out. -/
def oFailSecond : Nat → ReqOutcome := fun k => if k = 1 then .timeout else .ok

/-- A broker state with two registered owners, neither finished. -/
def stW : BrokerState := ⟨serverW, 0, [], [(1, false), (2, false)]⟩

/-- An opaque command string used in concrete batches. -/
def cmdA : String := "a"

/-- Another opaque command string used in concrete batches. -/
def cmdB : String := "b"

/-- An opaque model-building command used in concrete batches. -/
def cmdOpen : String := "open model"

/-! ## Lemmas and theorems -/

set_option maxRecDepth 100000

set_option linter.unnecessarySeqFocus false

/-- With no stdout line, every polling attempt hits `queue.Empty` and the
loop keeps going. -/
lemma pollLoop_none (r : Nat) : ∀ fuel k, pollLoop none r fuel k = .stillPolling := by
  intro fuel
  induction fuel with
  | zero => intro k; rfl
  | succ fuel ih => intro k; simpa [pollLoop] using ih (k + 1)

/-- Once enough attempts are observed, the polling loop reaches the
attempt at which the line is available and parses it. -/
lemma pollLoop_some (l : String) (r : Nat) :
    ∀ fuel k, r - k < fuel →
      pollLoop (some l) r fuel k =
        match parsePort l with
        | some p => .found p
        | none => .parseError := by
  intro fuel
  induction fuel with
  | zero => intro k h; omega
  | succ fuel ih =>
    intro k h
    by_cases hrk : r ≤ k
    · simp [pollLoop, hrk]
    · have h1 : r - (k + 1) < fuel := by omega
      simpa [pollLoop, hrk] using ih (k + 1) h1

/-- C7 counterexample: the claim says endpoint discovery "fails fatally
(a propagated error that aborts the run, rather than an indefinite hang)
if no such line appears within a bounded number of polling attempts".  In
the code the polling loop is unbounded: when the process writes no line,
after 1000 polling attempts `start_chimera_server` has neither returned
nor raised — it is still polling. -/
theorem port_discovery_unbounded_cex :
    start_chimera_server envNone 0 1000 serverInit = .polling := by decide

/-- C7 (amended): during Starting the handle polls the process's stdout
queue with a fixed short sleep between attempts until the port line
appears; but the polling is unbounded: if no line ever appears the loop
never exits (no fatal error, an indefinite hang); once the line is
available it is parsed, yielding the started server on a matching line
and a fatal propagated error only on a non-matching line. -/
theorem port_discovery_unbounded (env : SpawnEnv) (g : Nat) (s : ChimeraServer)
    (l : String) (p : Nat) :
    (∀ fuel, env.firstLine g = none → start_chimera_server env g fuel s = .polling)
    ∧ (∀ fuel, env.firstLine g = some l → parsePort l = some p → env.readyAt g < fuel →
        start_chimera_server env g fuel s =
          .started { s with process := some { pid := env.nextPid g, alive := true },
                            port := some p })
    ∧ (∀ fuel, env.firstLine g = some l → parsePort l = none → env.readyAt g < fuel →
        start_chimera_server env g fuel s = .fatal) := by
  refine ⟨fun fuel hl => ?_, fun fuel hl hp hf => ?_, fun fuel hl hp hf => ?_⟩
  · simp [start_chimera_server, hl, pollLoop_none]
  · have h := pollLoop_some l (env.readyAt g) fuel 0 (by omega)
    simp [start_chimera_server, hl, h, hp]
  · have h := pollLoop_some l (env.readyAt g) fuel 0 (by omega)
    simp [start_chimera_server, hl, h, hp]

/-- Witness for C7's amended theorem at a concrete environment. -/
theorem port_discovery_unbounded_witness :
    start_chimera_server envGood 0 1 serverInit =
      .started { serverInit with process := some { pid := envGood.nextPid 0, alive := true },
                                 port := some 7000 } :=
  (port_discovery_unbounded envGood 0 serverInit portLine7000 7000).2.1 1 rfl
    (by decide) (by decide)

/-- `quit` preserves the executable path. -/
lemma quit_path (s : ChimeraServer) : s.quit.chimera_exec_path = s.chimera_exec_path := by
  cases s with
  | mk port process path => cases process <;> simp [ChimeraServer.quit]

/-- C2: `restart_chimera_server` (modelled from the spec, being absent
from the sources) performs Terminate followed by Start: it equals
`start_chimera_server` applied after `quit`; `quit` marks the running
process dead; on successful port discovery the result is a fresh
endpoint (new process handle, newly discovered port); and the broker's
Recovering branch — entered from the dispatch loop on a timed request
that raises — invokes exactly this operation and then replays the batch
from index 0. -/
theorem restart_terminate_then_start (env : SpawnEnv) (g pf : Nat)
    (s : ChimeraServer) (q : Nat)
    (hpoll : pollLoop (env.firstLine g) (env.readyAt g) pf 0 = .found q) :
    restart_chimera_server env g pf s = start_chimera_server env g pf s.quit
    ∧ (∀ p, s.process = some p → s.quit.process = some { pid := p.pid, alive := false })
    ∧ restart_chimera_server env g pf s =
        .started { port := some q,
                   process := some { pid := env.nextPid g, alive := true },
                   chimera_exec_path := s.chimera_exec_path }
    ∧ (∀ (o : Nat → ReqOutcome) (cmds : List String) (fuel : Nat) (s₀ : ChimeraServer)
        (g₀ k i : Nat) (h : i < cmds.length), o k ≠ .ok → (g = g₀ + 1) →
        batchLoop env o pf cmds (fuel + 1) s₀ g₀ k i =
          match restart_chimera_server env (g₀ + 1) pf s₀ with
          | .started s₁ =>
            consEv (.request (cmds.get ⟨i, h⟩) (some 600) s₀.port)
              (consEv (.restartEv s₀.port s₁.port)
                (batchLoop env o pf cmds fuel s₁ (g₀ + 1) (k + 1) 0))
          | .fatal => .fatal [.request (cmds.get ⟨i, h⟩) (some 600) s₀.port]
          | .polling => .hung [.request (cmds.get ⟨i, h⟩) (some 600) s₀.port]) := by
  refine ⟨rfl, fun p hp => ?_, ?_, fun o cmds fuel s₀ g₀ k i h hok hg => ?_⟩
  · cases s with
    | mk port process path => cases process <;> simp_all [ChimeraServer.quit]
  · have hpath := quit_path s
    cases hq : s.quit with
    | mk qport qprocess qpath =>
      simp [restart_chimera_server, start_chimera_server, hq, hpoll]
      rw [hq] at hpath
      simp at hpath
      simp [hpath]
  · cases hcase : o k with
    | ok => exact absurd hcase hok
    | timeout => simp [batchLoop, h, hcase]
    | connError => simp [batchLoop, h, hcase]

/-- Witness for C2's theorem at a concrete environment: restarting a
running server yields a fresh process handle and the advertised port. -/
theorem restart_terminate_then_start_witness :
    restart_chimera_server envGood 5 1 serverW =
      .started { port := some 7000,
                 process := some { pid := envGood.nextPid 5, alive := true },
                 chimera_exec_path := serverW.chimera_exec_path } :=
  (restart_terminate_then_start envGood 5 1 serverW 7000 (by decide)).2.2.1

/-- Inversion for `consEv` producing a completed result. -/
lemma consEv_done {e : BrokerEv} {r : ExecResult} {s : ChimeraServer} {g : Nat}
    {tr : List BrokerEv} :
    consEv e r = .done s g tr ↔ ∃ tr', r = .done s g tr' ∧ tr = e :: tr' := by
  cases r with
  | done s1 g1 tr1 =>
    simp only [consEv, ExecResult.done.injEq]
    aesop
  | fatal tr1 => simp [consEv]
  | hung tr1 => simp [consEv]

/-- A trace with no restart events is its own final pass. -/
lemma finalPass_eq_self {l : List BrokerEv} (h : l.any isRestart = false) :
    finalPass l = l := by
  induction l with
  | nil => rfl
  | cons e rest ih =>
    simp only [List.any_cons, Bool.or_eq_false_iff] at h
    simp [finalPass, h.1, h.2]

/-- The final pass ignores events before a later restart. -/
lemma finalPass_cons_any {e : BrokerEv} {rest : List BrokerEv}
    (h : rest.any isRestart = true) : finalPass (e :: rest) = finalPass rest := by
  simp [finalPass, h]

/-- The final pass after the last restart is everything that follows it. -/
lemma finalPass_restart_cons {a b : Option Nat} {rest : List BrokerEv}
    (h : rest.any isRestart = false) :
    finalPass (.restartEv a b :: rest) = rest := by
  simp [finalPass, h, isRestart]

/-- Structure of a completed dispatch loop: with no restart the trace is
exactly the remaining commands issued in order against the unchanged
server; with restarts, the events after the last restart are exactly the
whole batch issued in order against the final server. -/
lemma batchLoop_done_spec (env : SpawnEnv) (o : Nat → ReqOutcome) (pf : Nat)
    (cmds : List String) :
    ∀ (fuel : Nat) (s : ChimeraServer) (g k i : Nat) (s' : ChimeraServer) (g' : Nat)
      (tr : List BrokerEv),
      batchLoop env o pf cmds fuel s g k i = .done s' g' tr →
      (tr.any isRestart = false →
        s' = s ∧ g' = g ∧ tr = (cmds.drop i).map fun c => .request c (some 600) s.port)
      ∧ (tr.any isRestart = true →
        finalPass tr = cmds.map fun c => .request c (some 600) s'.port) := by
  intro fuel
  induction fuel with
  | zero => intro s g k i s' g' tr h; simp [batchLoop] at h
  | succ fuel ih =>
    intro s g k i s' g' tr h
    rw [batchLoop] at h
    by_cases hi : i < cmds.length
    · rw [dif_pos hi] at h
      cases hok : o k with
      | ok =>
        rw [hok] at h
        rw [consEv_done] at h
        obtain ⟨tr₁, hb₁, rfl⟩ := h
        have IH := ih s g (k + 1) (i + 1) s' g' tr₁ hb₁
        constructor
        · intro hany
          simp only [List.any_cons, Bool.or_eq_false_iff] at hany
          obtain ⟨hs, hg, htr⟩ := IH.1 hany.2
          refine ⟨hs, hg, ?_⟩
          rw [List.drop_eq_getElem_cons hi, List.map_cons, htr]
          simp
        · intro hany
          simp only [List.any_cons, isRestart, Bool.false_or] at hany
          rw [finalPass_cons_any hany]
          exact IH.2 hany
      | timeout =>
        rw [hok] at h
        cases hres : restart_chimera_server env (g + 1) pf s with
        | started s₁ =>
          rw [hres] at h
          rw [consEv_done] at h
          obtain ⟨tr₁, hb₁, rfl⟩ := h
          rw [consEv_done] at hb₁
          obtain ⟨tr₂, hb₂, rfl⟩ := hb₁
          have IH := ih s₁ (g + 1) (k + 1) 0 s' g' tr₂ hb₂
          constructor
          · intro hany; simp [isRestart] at hany
          · intro _
            rw [finalPass_cons_any (by simp [isRestart])]
            cases h2 : tr₂.any isRestart with
            | true =>
              rw [finalPass_cons_any h2]
              exact IH.2 h2
            | false =>
              rw [finalPass_restart_cons h2]
              obtain ⟨hs, hg, htr⟩ := IH.1 h2
              rw [htr, hs]
              simp
        | fatal => rw [hres] at h; exact absurd h (by simp)
        | polling => rw [hres] at h; exact absurd h (by simp)
      | connError =>
        rw [hok] at h
        cases hres : restart_chimera_server env (g + 1) pf s with
        | started s₁ =>
          rw [hres] at h
          rw [consEv_done] at h
          obtain ⟨tr₁, hb₁, rfl⟩ := h
          rw [consEv_done] at hb₁
          obtain ⟨tr₂, hb₂, rfl⟩ := hb₁
          have IH := ih s₁ (g + 1) (k + 1) 0 s' g' tr₂ hb₂
          constructor
          · intro hany; simp [isRestart] at hany
          · intro _
            rw [finalPass_cons_any (by simp [isRestart])]
            cases h2 : tr₂.any isRestart with
            | true =>
              rw [finalPass_cons_any h2]
              exact IH.2 h2
            | false =>
              rw [finalPass_restart_cons h2]
              obtain ⟨hs, hg, htr⟩ := IH.1 h2
              rw [htr, hs]
              simp
        | fatal => rw [hres] at h; exact absurd h (by simp)
        | polling => rw [hres] at h; exact absurd h (by simp)
    · rw [dif_neg hi] at h
      injection h with hs hg htr
      subst hs; subst hg; subst htr
      constructor
      · intro _
        refine ⟨rfl, rfl, ?_⟩
        rw [List.drop_eq_nil_of_le (by omega)]
        simp
      · intro hany; simp at hany

/-- A completed dispatch loop started at index 0 on a non-empty batch
issues the batch's first command first. -/
lemma batchLoop_done_head (env : SpawnEnv) (o : Nat → ReqOutcome) (pf : Nat)
    (cmds : List String) :
    ∀ (fuel : Nat) (s : ChimeraServer) (g k : Nat) (s' : ChimeraServer) (g' : Nat)
      (tr : List BrokerEv), 0 < cmds.length →
      batchLoop env o pf cmds fuel s g k 0 = .done s' g' tr →
      ∃ p, tr.head? = some (.request cmds.headI (some 600) p) := by
  intro fuel s g k s' g' tr hlen h
  have hget : ∀ hh : 0 < cmds.length, cmds.get ⟨0, hh⟩ = cmds.headI := by
    intro hh
    cases cmds with
    | nil => simp at hh
    | cons c cs => rfl
  cases fuel with
  | zero => simp [batchLoop] at h
  | succ fuel =>
    rw [batchLoop] at h
    rw [dif_pos hlen] at h
    cases hok : o k with
    | ok =>
      rw [hok] at h
      rw [consEv_done] at h
      obtain ⟨tr₁, _, rfl⟩ := h
      exact ⟨s.port, by rw [hget hlen]; rfl⟩
    | timeout =>
      rw [hok] at h
      cases hres : restart_chimera_server env (g + 1) pf s with
      | started s₁ =>
        rw [hres] at h
        rw [consEv_done] at h
        obtain ⟨tr₁, _, rfl⟩ := h
        exact ⟨s.port, by rw [hget hlen]; rfl⟩
      | fatal => rw [hres] at h; exact absurd h (by simp)
      | polling => rw [hres] at h; exact absurd h (by simp)
    | connError =>
      rw [hok] at h
      cases hres : restart_chimera_server env (g + 1) pf s with
      | started s₁ =>
        rw [hres] at h
        rw [consEv_done] at h
        obtain ⟨tr₁, _, rfl⟩ := h
        exact ⟨s.port, by rw [hget hlen]; rfl⟩
      | fatal => rw [hres] at h; exact absurd h (by simp)
      | polling => rw [hres] at h; exact absurd h (by simp)

/-- In the trace of a completed dispatch loop, every restart event is
immediately followed by a request for the batch's first command: the
batch is replayed from index 0, not from the point of failure. -/
lemma batchLoop_restart_replay (env : SpawnEnv) (o : Nat → ReqOutcome) (pf : Nat)
    (cmds : List String) :
    ∀ (fuel : Nat) (s : ChimeraServer) (g k i : Nat) (s' : ChimeraServer) (g' : Nat)
      (tr : List BrokerEv),
      batchLoop env o pf cmds fuel s g k i = .done s' g' tr →
      ∀ n a b, tr.get? n = some (.restartEv a b) →
        ∃ p, tr.get? (n + 1) = some (.request cmds.headI (some 600) p) := by
  intro fuel
  induction fuel with
  | zero => intro s g k i s' g' tr h; simp [batchLoop] at h
  | succ fuel ih =>
    intro s g k i s' g' tr h
    rw [batchLoop] at h
    by_cases hi : i < cmds.length
    · rw [dif_pos hi] at h
      cases hok : o k with
      | ok =>
        rw [hok] at h
        rw [consEv_done] at h
        obtain ⟨tr₁, hb₁, rfl⟩ := h
        intro n a b hn
        cases n with
        | zero => simp at hn
        | succ n =>
          have hn' : tr₁.get? n = some (.restartEv a b) := hn
          obtain ⟨p, hp⟩ := ih s g (k + 1) (i + 1) s' g' tr₁ hb₁ n a b hn'
          exact ⟨p, hp⟩
      | timeout =>
        rw [hok] at h
        cases hres : restart_chimera_server env (g + 1) pf s with
        | started s₁ =>
          rw [hres] at h
          rw [consEv_done] at h
          obtain ⟨tr₁, hb₁, rfl⟩ := h
          rw [consEv_done] at hb₁
          obtain ⟨tr₂, hb₂, rfl⟩ := hb₁
          intro n a b hn
          match n, hn with
          | 0, hn => simp at hn
          | 1, hn =>
            obtain ⟨p, hp⟩ :=
              batchLoop_done_head env o pf cmds fuel s₁ (g + 1) (k + 1) s' g' tr₂
                (by omega) hb₂
            refine ⟨p, ?_⟩
            show tr₂.get? 0 = _
            cases tr₂ with
            | nil => simp at hp
            | cons e rest => simpa using hp
          | n + 2, hn =>
            have hn' : tr₂.get? n = some (.restartEv a b) := hn
            obtain ⟨p, hp⟩ := ih s₁ (g + 1) (k + 1) 0 s' g' tr₂ hb₂ n a b hn'
            exact ⟨p, hp⟩
        | fatal => rw [hres] at h; exact absurd h (by simp)
        | polling => rw [hres] at h; exact absurd h (by simp)
      | connError =>
        rw [hok] at h
        cases hres : restart_chimera_server env (g + 1) pf s with
        | started s₁ =>
          rw [hres] at h
          rw [consEv_done] at h
          obtain ⟨tr₁, hb₁, rfl⟩ := h
          rw [consEv_done] at hb₁
          obtain ⟨tr₂, hb₂, rfl⟩ := hb₁
          intro n a b hn
          match n, hn with
          | 0, hn => simp at hn
          | 1, hn =>
            obtain ⟨p, hp⟩ :=
              batchLoop_done_head env o pf cmds fuel s₁ (g + 1) (k + 1) s' g' tr₂
                (by omega) hb₂
            refine ⟨p, ?_⟩
            show tr₂.get? 0 = _
            cases tr₂ with
            | nil => simp at hp
            | cons e rest => simpa using hp
          | n + 2, hn =>
            have hn' : tr₂.get? n = some (.restartEv a b) := hn
            obtain ⟨p, hp⟩ := ih s₁ (g + 1) (k + 1) 0 s' g' tr₂ hb₂ n a b hn'
            exact ⟨p, hp⟩
        | fatal => rw [hres] at h; exact absurd h (by simp)
        | polling => rw [hres] at h; exact absurd h (by simp)
    · rw [dif_neg hi] at h
      injection h with hs hg htr
      subst htr
      intro n a b hn
      simp at hn

/-- In `envGood` every restart immediately succeeds, yielding a fresh
process at the advertised port. -/
lemma restart_envGood (g : Nat) (s : ChimeraServer) :
    restart_chimera_server envGood g 1 s =
      .started ⟨some 7000, some ⟨g, true⟩, s.chimera_exec_path⟩ := by
  have hp : parsePort portLine7000 = some 7000 := by decide
  have hpath := quit_path s
  cases hq : s.quit with
  | mk qport qprocess qpath =>
    rw [hq] at hpath
    simp only at hpath
    simp [restart_chimera_server, start_chimera_server, envGood, pollLoop, hp, hq, hpath]

/-- For every retry count `m` there is an oracle under which the dispatch
loop restarts the server exactly `m` times and still completes: the retry
loop has no bound. -/
lemma batchLoop_retries :
    ∀ (m g k : Nat) (s : ChimeraServer),
      ∃ s' g' tr,
        batchLoop envGood (fun j => if j < k + m then .timeout else .ok) 1 [cmdA]
            (m + 2) s g k 0 = .done s' g' tr
        ∧ countRestarts tr = m := by
  intro m
  induction m with
  | zero =>
    intro g k s
    refine ⟨s, g, [.request cmdA (some 600) s.port], ?_, by simp [countRestarts, isRestart]⟩
    have hk : ¬ k < k + 0 := by omega
    rw [batchLoop]
    rw [dif_pos (by simp : (0 : Nat) < [cmdA].length)]
    simp only [hk, if_false]
    rw [batchLoop]
    norm_num
    rfl
  | succ m ih =>
    intro g k s
    have hk : k < k + (m + 1) := by omega
    have harith : k + (m + 1) = (k + 1) + m := by omega
    obtain ⟨s', g', tr, hb, hcount⟩ :=
      ih (g + 1) (k + 1) ⟨some 7000, some ⟨g + 1, true⟩, s.chimera_exec_path⟩
    rw [← harith] at hb
    refine ⟨s', g',
      .request cmdA (some 600) s.port ::
        .restartEv s.port (some 7000) :: tr, ?_, ?_⟩
    · rw [batchLoop]
      rw [dif_pos (by simp : (0 : Nat) < [cmdA].length)]
      simp only [hk, if_true]
      rw [restart_envGood]
      simp only [consEv]
      rw [hb]
      rfl
    · simp [countRestarts, isRestart] at hcount ⊢
      omega

/-- C1: for every submitted non-END batch that the dispatch loop
completes, the commands issued on the final pass (the events after the
last restart, or the whole trace when there was none) are exactly the
submitted sequence, in order; every restart is immediately followed by a
request for the batch's first command (replay from index 0, not from the
point of failure); and for every `m` there is an execution with exactly
`m` restarts that still completes — the retry count is unbounded. -/
theorem broker_batch_replay_order (env : SpawnEnv) (o : Nat → ReqOutcome) (pf : Nat)
    (cmds : List String) (fuel g k : Nat) (s s' : ChimeraServer) (g' : Nat)
    (tr : List BrokerEv)
    (h : batchLoop env o pf cmds fuel s g k 0 = .done s' g' tr) :
    finalPass tr = cmds.map (fun c => BrokerEv.request c (some 600) s'.port)
    ∧ (∀ n a b, tr.get? n = some (.restartEv a b) →
        ∃ p, tr.get? (n + 1) = some (.request cmds.headI (some 600) p))
    ∧ (∀ m, ∃ s₂ g₂ tr₂,
        batchLoop envGood (fun j => if j < m then .timeout else .ok) 1 [cmdA]
            (m + 2) serverW 0 0 0 = .done s₂ g₂ tr₂
        ∧ countRestarts tr₂ = m) := by
  have spec := batchLoop_done_spec env o pf cmds fuel s g k 0 s' g' tr h
  refine ⟨?_, batchLoop_restart_replay env o pf cmds fuel s g k 0 s' g' tr h, ?_⟩
  · cases hany : tr.any isRestart with
    | false =>
      obtain ⟨hs, hg, htr⟩ := spec.1 hany
      rw [finalPass_eq_self hany, htr, hs]
      simp
    | true => exact spec.2 hany
  · intro m
    simpa using batchLoop_retries m 0 0 serverW

/-- Witness for C1's theorem: a two-command batch whose second request
times out once; the final pass replays both commands in order. -/
theorem broker_batch_replay_order_witness :
    finalPass
        [.request cmdA (some 600) (some 7000), .request cmdB (some 600) (some 7000),
         .restartEv (some 7000) (some 7000),
         .request cmdA (some 600) (some 7000), .request cmdB (some 600) (some 7000)]
      = [cmdA, cmdB].map fun c => BrokerEv.request c (some 600) (some 7000) :=
  (broker_batch_replay_order envGood oFailSecond 1 [cmdA, cmdB] 10 0 0 serverW
      ⟨some 7000, some ⟨1, true⟩, serverW.chimera_exec_path⟩ 1 _ (by decide)).1

/-- After `process_events[pid].set()`, the flag recorded for `pid` is
`true`. -/
lemma setEvent_lookup {events : List (Nat × Bool)} {pid : Nat}
    {ev' : List (Nat × Bool)} (h : setEvent events pid = some ev') :
    lookupFlag ev' pid = some true := by
  unfold setEvent at h
  by_cases hany : events.any fun e => e.1 == pid
  · rw [if_pos hany] at h
    injection h with h
    subst h
    induction events with
    | nil => simp at hany
    | cons e rest ih =>
      by_cases he : e.1 == pid
      · simp [lookupFlag, List.find?, he]
      · simp only [List.any_cons, he, Bool.false_or] at hany
        have := ih hany
        simp only [List.map_cons, he, if_false, lookupFlag, List.find?] at this ⊢
        simpa [he] using this
  · rw [if_neg hany] at h
    exact absurd h (by simp)

/-- Setting an event preserves the number of registered owners. -/
lemma setEvent_length {events : List (Nat × Bool)} {pid : Nat}
    {ev' : List (Nat × Bool)} (h : setEvent events pid = some ev') :
    ev'.length = events.length := by
  unfold setEvent at h
  by_cases hany : events.any fun e => e.1 == pid
  · rw [if_pos hany] at h
    injection h with h
    subst h
    simp
  · rw [if_neg hany] at h
    exact absurd h (by simp)

/-- Setting an event preserves the key set of the dictionary. -/
lemma setEvent_keys {events : List (Nat × Bool)} {pid : Nat}
    {ev' : List (Nat × Bool)} (h : setEvent events pid = some ev') :
    ev'.map Prod.fst = events.map Prod.fst := by
  unfold setEvent at h
  by_cases hany : events.any fun e => e.1 == pid
  · rw [if_pos hany] at h
    injection h with h
    subst h
    have hfst : (Prod.fst ∘ fun e : Nat × Bool => if e.1 == pid then (e.1, true) else e)
        = (Prod.fst : Nat × Bool → Nat) := by
      funext e
      by_cases he : e.1 = pid <;> simp [he]
    rw [List.map_map, hfst]
  · rw [if_neg hany] at h
    exact absurd h (by simp)

/-- A registered owner's event can always be set. -/
lemma setEvent_isSome {events : List (Nat × Bool)} {pid : Nat}
    (h : pid ∈ events.map Prod.fst) : ∃ ev', setEvent events pid = some ev' := by
  have hany : (events.any fun e => e.1 == pid) = true := by
    rw [List.any_eq_true]
    obtain ⟨e, he, hfst⟩ := List.mem_map.mp h
    exact ⟨e, he, by simp [hfst]⟩
  refine ⟨events.map fun e => if e.1 == pid then (e.1, true) else e, ?_⟩
  unfold setEvent
  rw [if_pos hany]

/-- When every timed request succeeds, the dispatch loop issues the
remaining commands in order against the unchanged server, without
restarting. -/
lemma batchLoop_allOk (env : SpawnEnv) (o : Nat → ReqOutcome) (pf : Nat)
    (cmds : List String) (ho : ∀ j, o j = .ok) :
    ∀ (fuel i g k : Nat), ∀ (srv : ChimeraServer), cmds.length - i < fuel →
      batchLoop env o pf cmds fuel srv g k i =
        .done srv g ((cmds.drop i).map fun c => .request c (some 600) srv.port) := by
  intro fuel
  induction fuel with
  | zero => intro i g k srv hlt; omega
  | succ fuel ih =>
    intro i g k srv hlt
    rw [batchLoop]
    by_cases hi : i < cmds.length
    · rw [dif_pos hi, ho k]
      rw [ih (i + 1) g (k + 1) srv (by omega)]
      simp only [consEv]
      rw [List.drop_eq_getElem_cons hi, List.map_cons]
      simp
    · rw [dif_neg hi]
      rw [List.drop_eq_nil_of_le (by omega)]
      simp

/-- C6: after executing every non-END batch — directly or after
recoveries — the broker issues exactly one additional unconditional
"close session" request (one more than however many such commands the
batch itself contained), and only then sets the owner's event. -/
theorem post_batch_cleanup_once (env : SpawnEnv) (o : Nat → ReqOutcome)
    (pf lf : Nat) (st : BrokerState) (pid : Nat) (c0 : String) (cs : List String)
    (s' : ChimeraServer) (g' : Nat) (tr : List BrokerEv) (ev' : List (Nat × Bool))
    (hne : c0 ≠ endSentinel)
    (hb : batchLoop env o pf (c0 :: cs) lf st.server st.gen 0 0 = .done s' g' tr)
    (hset : setEvent st.events pid = some ev') :
    serverStep env o .ok pf lf st ⟨pid, c0 :: cs⟩
      = .idle { st with server := s', gen := g', events := ev' }
          (tr ++ [BrokerEv.request closeSessionCmd none s'.port])
    ∧ cleanupCount (tr ++ [BrokerEv.request closeSessionCmd none s'.port])
        = cleanupCount tr + 1
    ∧ lookupFlag ev' pid = some true := by
  refine ⟨?_, ?_, setEvent_lookup hset⟩
  · simp [serverStep, hne, hb, hset]
  · simp [cleanupCount, List.countP_append, isCleanup, List.countP_cons]

/-- Witness for C6: a batch already containing two embedded
"close session" commands still gets exactly one additional cleanup. -/
theorem post_batch_cleanup_once_witness :
    serverStep envGood oAllOk .ok 1 9 stW ⟨1, [cmdOpen, closeSessionCmd, closeSessionCmd]⟩
      = .idle { stW with server := serverW, gen := 0, events := [(1, true), (2, false)] }
          ([.request cmdOpen (some 600) (some 7000),
            .request closeSessionCmd (some 600) (some 7000),
            .request closeSessionCmd (some 600) (some 7000)]
            ++ [BrokerEv.request closeSessionCmd none (some 7000)]) :=
  (post_batch_cleanup_once envGood oAllOk 1 9 stW 1 cmdOpen [closeSessionCmd, closeSessionCmd]
      serverW 0
      [.request cmdOpen (some 600) (some 7000),
       .request closeSessionCmd (some 600) (some 7000),
       .request closeSessionCmd (some 600) (some 7000)]
      [(1, true), (2, false)] (by decide) (by decide) (by decide)).1

/-- C10: the post-batch cleanup request is issued outside the
`try`/`except` recovery handler and without a timeout (`timeoutParam` is
`none`): after a batch whose dispatch loop completed — in particular one
whose own commands all succeeded, per the last conjunct — a
`ConnectionError` on the cleanup propagates out of the broker loop,
crashing the broker with the owner's event left unset and no restart
attempted, and a hung cleanup request never returns. -/
theorem cleanup_outside_recovery (env : SpawnEnv) (o : Nat → ReqOutcome)
    (pf lf : Nat) (st : BrokerState) (pid : Nat) (c0 : String) (cs : List String)
    (s' : ChimeraServer) (g' : Nat) (tr : List BrokerEv)
    (hne : c0 ≠ endSentinel)
    (hb : batchLoop env o pf (c0 :: cs) lf st.server st.gen 0 0 = .done s' g' tr) :
    serverStep env o .connError pf lf st ⟨pid, c0 :: cs⟩
      = .crash .connectionError { st with server := s', gen := g' }
          (tr ++ [BrokerEv.request closeSessionCmd none s'.port])
    ∧ serverStep env o .hang pf lf st ⟨pid, c0 :: cs⟩
        = .stuck (tr ++ [BrokerEv.request closeSessionCmd none s'.port])
    ∧ (∀ rest, run_chimera_server env o .connError pf lf st (⟨pid, c0 :: cs⟩ :: rest)
        = .crashed .connectionError)
    ∧ (∀ rest, run_chimera_server env o .hang pf lf st (⟨pid, c0 :: cs⟩ :: rest)
        = .stuckR)
    ∧ ((∀ j, o j = .ok) → (c0 :: cs).length < lf →
        batchLoop env o pf (c0 :: cs) lf st.server st.gen 0 0 =
          .done st.server st.gen
            ((c0 :: cs).map fun c => .request c (some 600) st.server.port)) := by
  have h1 : serverStep env o .connError pf lf st ⟨pid, c0 :: cs⟩
      = .crash .connectionError { st with server := s', gen := g' }
          (tr ++ [BrokerEv.request closeSessionCmd none s'.port]) := by
    simp [serverStep, hne, hb]
  have h2 : serverStep env o .hang pf lf st ⟨pid, c0 :: cs⟩
      = .stuck (tr ++ [BrokerEv.request closeSessionCmd none s'.port]) := by
    simp [serverStep, hne, hb]
  refine ⟨h1, h2, fun rest => ?_, fun rest => ?_, fun ho hlf => ?_⟩
  · rw [run_chimera_server, h1]
  · rw [run_chimera_server, h2]
  · have := batchLoop_allOk env o pf (c0 :: cs) ho lf 0 st.gen 0 st.server (by omega)
    simpa using this

/-- Witness for C10: a one-command batch that succeeds, after which the
cleanup's connection failure crashes the broker unrecovered. -/
theorem cleanup_outside_recovery_witness :
    serverStep envGood oAllOk .connError 1 9 stW ⟨1, [cmdA]⟩
      = .crash .connectionError { stW with server := serverW, gen := 0 }
          ([.request cmdA (some 600) (some 7000)]
            ++ [BrokerEv.request closeSessionCmd none (some 7000)]) :=
  (cleanup_outside_recovery envGood oAllOk 1 9 stW 1 cmdA [] serverW 0
      [.request cmdA (some 600) (some 7000)] (by decide) (by decide)).1

/-- C5 counterexample: the claim says the broker returns to Idle
"without setting that owner's completion signal" on END.  In the code
(`ets_generate_data.py:298`) the END branch sets
`process_events[requester_pid]` before returning to the top of the loop:
here owner 1 submits END and its event flag becomes `true`. -/
theorem end_signals_owner_cex :
    serverStep envGood oAllOk .ok 1 9 stW ⟨1, [endSentinel]⟩
      = .idle ⟨serverW, 0, [1], [(1, true), (2, false)]⟩ [] := by decide

/-- C5 (amended): when the broker receives END from an owner it records
the owner as finished and sets that owner's completion signal before
terminating or returning to Idle, issuing no request; and the worker
that submitted END blocks on its completion signal exactly as for a
normal batch — `T4SSAssembler.close` submits `["END"]` through the very
same put/wait/clear path as any other submission. -/
theorem end_signals_owner (env : SpawnEnv) (o : Nat → ReqOutcome)
    (cu : CleanupOutcome) (pf lf : Nat) (st : BrokerState) (pid : Nat)
    (ev' : List (Nat × Bool))
    (hset : setEvent st.events pid = some ev') :
    serverStep env o cu pf lf st ⟨pid, [endSentinel]⟩
      = (if (st.finished ++ [pid]).length = st.events.length
         then .terminated { st with finished := st.finished ++ [pid], events := ev' } []
         else .idle { st with finished := st.finished ++ [pid], events := ev' } [])
    ∧ lookupFlag ev' pid = some true
    ∧ (∀ cmds, send_commands_to_chimera cmds = [.put cmds, .waitAck, .clearAck])
    ∧ t4ss_close = [.put [endSentinel], .waitAck, .clearAck] := by
  refine ⟨?_, setEvent_lookup hset, fun cmds => rfl, rfl⟩
  simp only [serverStep, List.head?_cons, if_true]
  rw [hset]

/-- Witness for C5's amended theorem: a non-final END leaves the broker
serving, with the sender's event set. -/
theorem end_signals_owner_witness :
    serverStep envGood oAllOk .ok 1 9 stW ⟨2, [endSentinel]⟩
      = (if ((stW.finished ++ [2]).length = stW.events.length)
         then .terminated { stW with finished := stW.finished ++ [2],
                                     events := [(1, false), (2, true)] } []
         else .idle { stW with finished := stW.finished ++ [2],
                               events := [(1, false), (2, true)] } []) :=
  (end_signals_owner envGood oAllOk .ok 1 9 stW 2 [(1, false), (2, true)] (by decide)).1

/-- C8 counterexample: the claim says the broker "does not fail before
issuing the batch's commands (or sentinel check) against the external
endpoint" and that a malformed batch's failure mode comes from the
external application.  For the empty batch, `new_commands[0]` raises
`IndexError` inside the broker itself (`ets_generate_data.py:292`),
before any request is issued (the trace is empty). -/
theorem empty_batch_broker_crash_cex :
    serverStep envGood oAllOk .ok 1 9 stW ⟨1, []⟩ = .crash .indexError stW [] := by
  decide

/-- C8 (amended): the broker performs no validation of batches — any
non-empty non-END batch has every command string issued verbatim against
the external endpoint, so failure modes for malformed commands are the
external application's; but for an empty command list the broker itself
raises `IndexError` at the sentinel check, before issuing anything. -/
theorem batch_no_validation (env : SpawnEnv) (o : Nat → ReqOutcome)
    (pf lf : Nat) (st : BrokerState) (pid : Nat) (c0 : String) (cs : List String)
    (ev' : List (Nat × Bool))
    (hne : c0 ≠ endSentinel) (ho : ∀ j, o j = .ok) (hlf : (c0 :: cs).length < lf)
    (hset : setEvent st.events pid = some ev') :
    (∀ (cu : CleanupOutcome) (st' : BrokerState) (p : Nat),
      serverStep env o cu pf lf st' ⟨p, []⟩ = .crash .indexError st' [])
    ∧ serverStep env o .ok pf lf st ⟨pid, c0 :: cs⟩
        = .idle { st with events := ev' }
            (((c0 :: cs).map fun c => BrokerEv.request c (some 600) st.server.port)
              ++ [BrokerEv.request closeSessionCmd none st.server.port]) := by
  constructor
  · intro cu st' p
    rfl
  · have hb := batchLoop_allOk env o pf (c0 :: cs) ho lf 0 st.gen 0 st.server (by omega)
    simp only [List.drop_zero] at hb
    simp [serverStep, hne, hb, hset]

/-- Witness for C8's amended theorem: an arbitrary (unvalidated) command
string is issued verbatim. -/
theorem batch_no_validation_witness :
    serverStep envGood oAllOk .ok 1 9 stW ⟨1, [cmdOpen]⟩
      = .idle { stW with events := [(1, true), (2, false)] }
          (([cmdOpen].map fun c => BrokerEv.request c (some 600) (some 7000))
            ++ [BrokerEv.request closeSessionCmd none (some 7000)]) :=
  (batch_no_validation envGood oAllOk 1 9 stW 1 cmdOpen [] [(1, true), (2, false)]
      (by decide) (fun j => rfl) (by decide) (by decide)).2

/-- C9: the broker's drain decision counts END sentinels with
multiplicity (`finished_processes` is an append-only list compared to
`len(process_events)` by length): with owners 1 and 2 registered, owner 1
submitting END twice terminates the broker even though registered owner 2
never submitted END. -/
theorem end_count_multiplicity_termination :
    isTerminated (run_chimera_server envGood oAllOk .ok 1 9 stW [endMsg 1, endMsg 1]) = true
    ∧ 2 ∈ stW.events.map Prod.fst
    ∧ 2 ∉ finishedOf (run_chimera_server envGood oAllOk .ok 1 9 stW [endMsg 1, endMsg 1]) := by
  refine ⟨by decide, by decide, by decide⟩

/-- Unfolding of the broker's END branch: append the pid to
`finished_processes`, set its event, and break out of the loop exactly
when the count of finished pids reaches the number of registered owners. -/
lemma serverStep_end (env : SpawnEnv) (o : Nat → ReqOutcome) (cu : CleanupOutcome)
    (pf lf : Nat) (st : BrokerState) (pid : Nat) (ev' : List (Nat × Bool))
    (hset : setEvent st.events pid = some ev') :
    serverStep env o cu pf lf st ⟨pid, [endSentinel]⟩
      = if (st.finished ++ [pid]).length = st.events.length
        then .terminated { st with finished := st.finished ++ [pid], events := ev' } []
        else .idle { st with finished := st.finished ++ [pid], events := ev' } [] := by
  simp only [serverStep, List.head?_cons, if_true]
  rw [hset]

/-- One idle step of the message loop. -/
lemma run_cons (env : SpawnEnv) (o : Nat → ReqOutcome) (cu : CleanupOutcome)
    (pf lf : Nat) (st st' : BrokerState) (m : Msg) (tr : List BrokerEv)
    (rest : List Msg) (h : serverStep env o cu pf lf st m = .idle st' tr) :
    run_chimera_server env o cu pf lf st (m :: rest)
      = run_chimera_server env o cu pf lf st' rest := by
  rw [run_chimera_server, h]

/-- A terminating step of the message loop: break, then `chimera.quit()`. -/
lemma run_cons_term (env : SpawnEnv) (o : Nat → ReqOutcome) (cu : CleanupOutcome)
    (pf lf : Nat) (st st' : BrokerState) (m : Msg) (tr : List BrokerEv)
    (rest : List Msg) (h : serverStep env o cu pf lf st m = .terminated st' tr) :
    run_chimera_server env o cu pf lf st (m :: rest)
      = .terminatedR { st' with server := st'.server.quit } := by
  rw [run_chimera_server, h]

/-- The broker's drain loop over a sequence of END submissions: it
terminates exactly when the number of (with-multiplicity) END
submissions reaches the number of registered owners; short of that it is
still serving. -/
lemma drain_loop (env : SpawnEnv) (o : Nat → ReqOutcome) (cu : CleanupOutcome)
    (pf lf : Nat) :
    ∀ (ends : List Nat) (events : List (Nat × Bool)) (fin : List Nat)
      (sv : ChimeraServer) (g : Nat),
      (fin ++ ends).Nodup →
      (∀ x ∈ fin ++ ends, x ∈ events.map Prod.fst) →
      (events.map Prod.fst).Nodup →
      fin.length < events.length →
      (isTerminated (run_chimera_server env o cu pf lf ⟨sv, g, fin, events⟩
          (ends.map endMsg)) = true
        ↔ events.length ≤ fin.length + ends.length)
      ∧ (¬ events.length ≤ fin.length + ends.length →
          ∃ st, run_chimera_server env o cu pf lf ⟨sv, g, fin, events⟩
            (ends.map endMsg) = .stillServing st) := by
  intro ends
  induction ends with
  | nil =>
    intro events fin sv g hnd hsub hK hlt
    refine ⟨?_, fun h => ⟨⟨sv, g, fin, events⟩, rfl⟩⟩
    simp only [List.map_nil, run_chimera_server, isTerminated, List.length_nil]
    constructor
    · intro h; exact absurd h (by simp)
    · intro h; omega
  | cons p rest ih =>
    intro events fin sv g hnd hsub hK hlt
    have hp : p ∈ events.map Prod.fst := hsub p (by simp)
    obtain ⟨ev', hset⟩ := setEvent_isSome hp
    have hkeys := setEvent_keys hset
    have hlen := setEvent_length hset
    have hstep : serverStep env o cu pf lf ⟨sv, g, fin, events⟩ (endMsg p)
        = if (fin ++ [p]).length = events.length
          then .terminated ⟨sv, g, fin ++ [p], ev'⟩ []
          else .idle ⟨sv, g, fin ++ [p], ev'⟩ [] :=
      serverStep_end env o cu pf lf ⟨sv, g, fin, events⟩ p ev' hset
    rw [List.map_cons]
    by_cases hterm : (fin ++ [p]).length = events.length
    · rw [if_pos hterm] at hstep
      rw [run_cons_term env o cu pf lf _ _ _ _ _ hstep]
      simp only [List.length_append, List.length_cons, List.length_nil] at hterm
      refine ⟨?_, fun h => ?_⟩
      · simp only [isTerminated, List.length_cons, true_iff]
        omega
      · exfalso
        simp only [List.length_cons] at h
        omega
    · rw [if_neg hterm] at hstep
      rw [run_cons env o cu pf lf _ _ _ _ _ hstep]
      have hnd' : ((fin ++ [p]) ++ rest).Nodup := by
        rw [← List.append_cons]; exact hnd
      have hsub' : ∀ x ∈ (fin ++ [p]) ++ rest, x ∈ ev'.map Prod.fst := by
        intro x hx
        rw [hkeys]
        apply hsub
        rw [List.append_cons]
        exact hx
      have hK' : (ev'.map Prod.fst).Nodup := by rwa [hkeys]
      have hlt' : (fin ++ [p]).length < ev'.length := by
        have hnd1 : (fin ++ [p]).Nodup := hnd'.of_append_left
        have hs1 : fin ++ [p] ⊆ events.map Prod.fst := by
          intro x hx
          apply hsub
          rw [List.append_cons]
          exact List.mem_append_left _ hx
        have hle := (hnd1.subperm hs1).length_le
        rw [List.length_map] at hle
        rw [hlen]
        omega
      have IH := ih ev' (fin ++ [p]) sv g hnd' hsub' hK' hlt'
      have hlenfix : ev'.length ≤ (fin ++ [p]).length + rest.length
          ↔ events.length ≤ fin.length + (p :: rest).length := by
        rw [hlen]
        simp only [List.length_append, List.length_cons, List.length_nil]
        omega
      refine ⟨?_, fun h => ?_⟩
      · rw [IH.1, hlenfix]
      · exact IH.2 (by rw [hlenfix]; exact h)

/-- C3: with at least one registered owner, under the precondition that
each owner submits END at most once (the submitted END sequence has no
duplicates) and only registered owners submit, the broker terminates
(breaks out of its loop and quits the external process) if and only if
every registered owner has submitted END; with any strict subset of
owners having submitted END it is still serving. -/
theorem broker_drain_iff_all_end (env : SpawnEnv) (o : Nat → ReqOutcome)
    (cu : CleanupOutcome) (pf lf : Nat) (sv : ChimeraServer)
    (events : List (Nat × Bool)) (ends : List Nat)
    (h0 : 0 < events.length)
    (hK : (events.map Prod.fst).Nodup)
    (hE : ends.Nodup)
    (hsub : ∀ p ∈ ends, p ∈ events.map Prod.fst) :
    (isTerminated (run_chimera_server env o cu pf lf ⟨sv, 0, [], events⟩
        (ends.map endMsg)) = true
      ↔ ∀ k ∈ events.map Prod.fst, k ∈ ends)
    ∧ ((∃ k ∈ events.map Prod.fst, k ∉ ends) →
        ∃ st, run_chimera_server env o cu pf lf ⟨sv, 0, [], events⟩
          (ends.map endMsg) = .stillServing st) := by
  have hD := drain_loop env o cu pf lf ends events [] sv 0
    (by simpa using hE) (by simpa using hsub) hK (by simpa using h0)
  simp only [List.length_nil, Nat.zero_add] at hD
  have hiff : events.length ≤ ends.length
      ↔ ∀ k ∈ events.map Prod.fst, k ∈ ends := by
    constructor
    · intro hle k hk
      have hsp : ends.Subperm (events.map Prod.fst) := hE.subperm hsub
      have hperm : ends.Perm (events.map Prod.fst) :=
        hsp.perm_of_length_le (by rw [List.length_map]; exact hle)
      exact hperm.mem_iff.mpr hk
    · intro hall
      have hsp : (events.map Prod.fst).Subperm ends := hK.subperm hall
      have := hsp.length_le
      rw [List.length_map] at this
      exact this
  constructor
  · rw [hD.1, hiff]
  · intro ⟨k, hk, hnk⟩
    apply hD.2
    rw [hiff]
    intro hall
    exact hnk (hall k hk)

/-- Witness for C3: both registered owners submit END once and the
broker terminates. -/
theorem broker_drain_iff_all_end_witness :
    isTerminated (run_chimera_server envGood oAllOk .ok 1 9
        ⟨serverW, 0, [], [(1, false), (2, false)]⟩ ([2, 1].map endMsg)) = true :=
  ((broker_drain_iff_all_end envGood oAllOk .ok 1 9 serverW [(1, false), (2, false)]
      [2, 1] (by decide) (by decide) (by decide) (by decide)).1).mpr (by decide)
/-- Inductive invariant of the owner/broker synchronisation: the
pipeline (queue, broker, unconsumed signal) is empty exactly when the
worker is about to submit, holds exactly one batch while the worker is
blocked in `send_and_wait`, and holds exactly the unconsumed signal
while the worker is about to clear it. -/
lemma sync_inv (s : SyncState) (h : SyncReachable s) :
    (s.w = .beforePut → inFlight s = 0)
    ∧ (s.w = .waitingAck → inFlight s = 1)
    ∧ (s.w = .clearing → s.q = 0 ∧ s.b = .idle ∧ s.flag = true) := by
  induction h with
  | refl =>
    refine ⟨fun _ => by simp [inFlight, syncInit], fun hw => by simp [syncInit] at hw,
      fun hw => by simp [syncInit] at hw⟩
  | @tail t c hab hbc ih =>
    obtain ⟨tw, tb, tq, tf⟩ := t
    cases hbc with
    | putBatch hw =>
      simp only at hw
      subst hw
      refine ⟨fun hc => by simp at hc, fun _ => ?_, fun hc => by simp at hc⟩
      have h0 := ih.1 rfl
      cases tb <;> cases tf <;> simp [inFlight] at h0 ⊢ <;> omega
    | ackWait hw hf =>
      simp only at hw hf
      subst hw
      subst hf
      refine ⟨fun hc => by simp at hc, fun hc => by simp at hc, fun _ => ?_⟩
      have h1 := ih.2.1 rfl
      cases tb <;> simp [inFlight] at h1 ⊢ <;> omega
    | ackClear hw =>
      simp only at hw
      subst hw
      obtain ⟨hq, hb, hf⟩ := ih.2.2 rfl
      simp only at hq hb hf
      subst hq
      subst hb
      subst hf
      exact ⟨fun _ => by simp [inFlight], fun hc => by simp at hc, fun hc => by simp at hc⟩
    | brokerGet hb hq =>
      simp only at hb hq
      subst hb
      refine ⟨fun hc => ?_, fun hc => ?_, fun hc => ?_⟩ <;> simp only at hc
      · subst hc
        have h0 := ih.1 rfl
        cases tf <;> simp [inFlight] at h0 ⊢ <;> omega
      · subst hc
        have h1 := ih.2.1 rfl
        cases tf <;> simp [inFlight] at h1 ⊢ <;> omega
      · subst hc
        obtain ⟨hq0, _, _⟩ := ih.2.2 rfl
        simp only at hq0
        exact absurd hq0 (by omega)
    | brokerSet hb =>
      simp only at hb
      subst hb
      refine ⟨fun hc => ?_, fun hc => ?_, fun hc => ?_⟩ <;> simp only at hc
      · subst hc
        have h0 := ih.1 rfl
        cases tf <;> simp [inFlight] at h0
      · subst hc
        have h1 := ih.2.1 rfl
        cases tf <;> simp [inFlight] at h1 ⊢ <;> omega
      · subst hc
        obtain ⟨_, hbi, _⟩ := ih.2.2 rfl
        cases hbi

/-- C4: in every reachable state of the owner/broker synchronisation, at
most one of this owner's batches is in flight (enqueued, executing, or
signalled-but-unconsumed); a new `Submit` can only begin (worker at
`beforePut`) when the pipeline is empty — so no second `Submit` begins
before the prior one has returned and cleared its signal; and the broker
only sets the single-slot signal when it is clear, so the signal never
holds a second unconsumed set state. -/
theorem at_most_one_in_flight (s : SyncState) (h : SyncReachable s) :
    inFlight s ≤ 1
    ∧ (s.w = .beforePut → inFlight s = 0)
    ∧ (s.b = .busy → s.flag = false) := by
  have inv := sync_inv s h
  refine ⟨?_, inv.1, ?_⟩
  · cases hw : s.w with
    | beforePut => rw [inv.1 hw]; omega
    | waitingAck => rw [inv.2.1 hw]
    | clearing =>
      obtain ⟨hq, hb, hf⟩ := inv.2.2 hw
      simp [inFlight, hq, hb, hf]
  · intro hb
    cases hw : s.w with
    | beforePut =>
      have h0 := inv.1 hw
      cases hf : s.flag
      · rfl
      · exfalso
        simp [inFlight, hb, hf] at h0
    | waitingAck =>
      have h1 := inv.2.1 hw
      cases hf : s.flag
      · rfl
      · exfalso
        simp [inFlight, hb, hf] at h1
    | clearing =>
      obtain ⟨_, hbi, _⟩ := inv.2.2 hw
      rw [hb] at hbi
      cases hbi

/-- Witness for C4 at the reachable state just after the worker's first
`put`. -/
theorem at_most_one_in_flight_witness :
    inFlight ⟨.waitingAck, .idle, 1, false⟩ ≤ 1
    ∧ ((⟨.waitingAck, .idle, 1, false⟩ : SyncState).w = .beforePut →
        inFlight ⟨.waitingAck, .idle, 1, false⟩ = 0)
    ∧ ((⟨.waitingAck, .idle, 1, false⟩ : SyncState).b = .busy →
        (⟨.waitingAck, .idle, 1, false⟩ : SyncState).flag = false) :=
  at_most_one_in_flight ⟨.waitingAck, .idle, 1, false⟩
    (Relation.ReflTransGen.single (SyncStep.putBatch syncInit rfl))
